import Mathlib

/-!
# Reconciling a nix profile with a flake's build inputs

A shallow embedding of `internal/devbox/nixprofile.go`:

* `diffStorePaths` (lines 90-112), the pure diff of two store-path lists;
* `syncFlakeToProfile` (lines 15-88), the procedure that evaluates the flake,
  lists the profile, diffs, and then removes and installs store paths.

External collaborators (`nix.Eval`, `nixprofile.ProfileListItems`,
`nix.ProfileRemove`, `nixprofile.ProfileInstall`, `nix.NewStorePathParts`, ...)
are not part of the file; they are fields of `Devbox`, and every effectful one
is a function of an explicit world state `σ`.  Each run returns the error
(`none` is Go's `nil`), the final world state and the trace of external calls
with their outcomes.
-/

namespace NixProfile

/-! ## Go maps used as presence sets -/

/-- A Go `map[string]bool`: a key is either absent or bound to a boolean. -/
def GoMap : Type := String → Option Bool

/-- The empty map literal `map[string]bool{}`. -/
def GoMap.empty : GoMap := fun _ => none

/-- The assignment `m[k] = v`. -/
def GoMap.set (m : GoMap) (k : String) (v : Bool) : GoMap :=
  fun x => if x = k then some v else m x

/-- The `ok` of the comma-ok lookup `_, ok := m[k]`. -/
def GoMap.has (m : GoMap) (k : String) : Bool := (m k).isSome

/-! ## `diffStorePaths` -/

/-- The function `diffStorePaths(got, want) (add, remove)`, lines 90-112.  The four
`for ... range` loops are left folds over the slices; `append` on a nil slice
starts from the empty list. -/
def diffStorePaths (got want : List String) : List String × List String :=
  let gotSet : GoMap := got.foldl (fun m g => m.set g true) GoMap.empty
  let wantSet : GoMap := want.foldl (fun m w => m.set w true) GoMap.empty
  let remove : List String :=
    got.foldl (fun remove g => if !wantSet.has g then remove ++ [g] else remove) []
  let add : List String :=
    want.foldl (fun add w => if !gotSet.has w then add ++ [w] else add) []
  (add, remove)

/-! ## Errors, arguments and the trace of external calls -/

/-- A Go `error` value: either an error carrying only a message, or one made by
`fmt.Errorf` with the `%w` verb, which also keeps the error it wraps. -/
inductive GoError where
  | leaf (msg : String)
  | wrap (msg : String) (cause : GoError)
  deriving DecidableEq, Repr

/-- The method `Error()`: the message of an error. -/
def GoError.Error : GoError → String
  | .leaf msg => msg
  | .wrap msg _ => msg

/-- The result of `errors.Unwrap`: the wrapped error, if any. -/
def GoError.Unwrap : GoError → Option GoError
  | .leaf _ => none
  | .wrap _ cause => some cause

/-- The value `fmt.Errorf(format, ...)` whose verbs are all `%v` or `%s`: a fresh
error with the formatted message that wraps nothing. -/
def Errorf (msg : String) : GoError := .leaf msg

/-- The value `fmt.Errorf(format, ..., err)` with one `%w` verb for `err`. -/
def ErrorfW (msg : String) (err : GoError) : GoError := .wrap msg err

/-- An `io.Writer` handle (only `d.stderr` occurs in the source). -/
structure Writer where
  fd : Nat
  deriving DecidableEq, Repr

/-- The fields of `nix.StorePathParts` that the source reads. -/
structure StorePathParts where
  Name : String
  Version : String
  deriving DecidableEq, Repr

/-- The struct `nixprofile.ProfileInstallArgs` as filled in at lines 72-82. -/
structure ProfileInstallArgs where
  CustomStepMessage : String
  Installable : String
  Offline : Bool
  PackageName : String
  ProfilePath : String
  Writer : Writer
  deriving DecidableEq, Repr

/-- The calls that `syncFlakeToProfile` makes outside of itself. -/
inductive Call where
  | profilePath
  | Eval (w : Writer) (installable : String) (flags : List String)
  | ProfileListItems (w : Writer) (profilePath : String)
  | Fprintf (w : Writer) (text : String)
  | ProfileRemove (profilePath : String) (paths : List String)
  | ProfileInstall (args : ProfileInstallArgs)
  deriving DecidableEq, Repr

/-- One call together with the error it returned (`none` for `nil`).  The result
of `fmt.Fprintf` is discarded by the source, so its events carry `none`. -/
structure Event where
  call : Call
  err : Option GoError
  deriving DecidableEq, Repr

/-- The receiver `d *Devbox` together with the package-level functions the
source calls.  `σ` is the state of the outside world (nix store, profile,
terminal), `Item` the type of the profile items.  `flakeDir` and `System` hold
the results of `d.flakeDir()` and `nix.System()`; `Unmarshal` is
`json.Unmarshal` into a `[]string`.  The `ctx` argument is handed on unchanged
to every callee and is left out. -/
structure Devbox (σ : Type) (Item : Type) where
  stderr : Writer
  profilePath : σ → Except GoError String × σ
  flakeDir : String
  System : String
  Eval : Writer → String → List String → σ → Except GoError String × σ
  Unmarshal : String → Except GoError (List String)
  ProfileListItems : Writer → String → σ → Except GoError (List Item) × σ
  StorePaths : Item → List String
  NewStorePathParts : String → StorePathParts
  Fprintf : Writer → String → σ → σ
  ProfileRemove : String → List String → σ → Option GoError × σ
  ProfileInstall : ProfileInstallArgs → σ → Option GoError × σ

/-- What a run of `syncFlakeToProfile` (or of a part of it) leaves behind: the
returned error, the world state, and the calls made, oldest first. -/
structure Run (σ : Type) where
  err : Option GoError
  state : σ
  trace : List Event

/-- The run `r` preceded by the events `evs`. -/
def Run.after {σ : Type} (evs : List Event) (r : Run σ) : Run σ :=
  { r with trace := evs ++ r.trace }

/-! ## `syncFlakeToProfile` -/

variable {σ Item : Type}

/-- The arguments of the `ProfileInstall` call made for `addPath` at index `idx`
of the loop, lines 67-81; `total` is `len(add)`. -/
def installArgs (d : Devbox σ Item) (profilePath : String) (total idx : Nat)
    (addPath : String) : ProfileInstallArgs :=
  let stepNum := idx + 1
  let storePath := d.NewStorePathParts addPath
  let nameAndVersion := storePath.Name ++ "@" ++ storePath.Version
  let stepMsg := "[" ++ toString stepNum ++ "/" ++ toString total ++ "] " ++ nameAndVersion
  { CustomStepMessage := stepMsg
    Installable := addPath
    Offline := true
    PackageName := storePath.Name
    ProfilePath := profilePath
    Writer := d.stderr }

/-- The loop `for idx, addPath := range add` of lines 66-85, entered at index
`idx` with the remaining elements of `add`; `total` is `len(add)`. -/
def installLoop (d : Devbox σ Item) (profilePath : String) (total : Nat) :
    Nat → List String → σ → Run σ
  | _, [], s => ⟨none, s, []⟩
  | idx, addPath :: rest, s =>
    match d.ProfileInstall (installArgs d profilePath total idx addPath) s with
    | (some err, s1) =>
      ⟨some (ErrorfW ("error installing package " ++ addPath ++ ": " ++ err.Error) err), s1,
        [⟨.ProfileInstall (installArgs d profilePath total idx addPath), some err⟩]⟩
    | (none, s1) =>
      (installLoop d profilePath total (idx + 1) rest s1).after
        [⟨.ProfileInstall (installArgs d profilePath total idx addPath), none⟩]

/-- The block `if len(add) > 0 { ... }` followed by `return nil`, lines 64-87. -/
def installPhase (d : Devbox σ Item) (profilePath : String) (add : List String) (s : σ) :
    Run σ :=
  if add.length > 0 then
    let total := add.length
    installLoop d profilePath total 0 add s
  else
    ⟨none, s, []⟩

/-- The progress line printed before the removal, lines 49-58. -/
def removalMessage (d : Devbox σ Item) (remove : List String) : String :=
  let packagesToRemove : List String :=
    remove.foldl
      (fun acc p =>
        let storePath := d.NewStorePathParts p
        acc ++ [storePath.Name ++ "@" ++ storePath.Version])
      []
  if packagesToRemove.length = 1 then
    "Removing " ++ ", ".intercalate packagesToRemove ++ "\n"
  else
    "Removing packages: " ++ ", ".intercalate packagesToRemove ++ "\n"

/-- The apply stage of `syncFlakeToProfile`, lines 48-87: everything after the
diff has produced `add` and `remove`. -/
def applyDelta (d : Devbox σ Item) (profilePath : String) (add remove : List String)
    (s : σ) : Run σ :=
  if remove.length > 0 then
    let text := removalMessage d remove
    let s1 := d.Fprintf d.stderr text s
    match d.ProfileRemove profilePath remove s1 with
    | (some err, s2) =>
      ⟨some err, s2, [⟨.Fprintf d.stderr text, none⟩, ⟨.ProfileRemove profilePath remove, some err⟩]⟩
    | (none, s2) =>
      (installPhase d profilePath add s2).after
        [⟨.Fprintf d.stderr text, none⟩, ⟨.ProfileRemove profilePath remove, none⟩]
  else
    installPhase d profilePath add s

/-- The method `(d *Devbox) syncFlakeToProfile(ctx) error`, lines 15-88. -/
def syncFlakeToProfile (d : Devbox σ Item) (s : σ) : Run σ :=
  match d.profilePath s with
  | (.error err, s1) => ⟨some err, s1, [⟨.profilePath, some err⟩]⟩
  | (.ok profilePath, s1) =>
    let installable := d.flakeDir ++ "#devShells." ++ d.System ++ ".default.buildInputs"
    match d.Eval d.stderr installable ["--json"] s1 with
    | (.error err, s2) =>
      ⟨some (Errorf ("nix eval devShells: " ++ err.Error)), s2,
        [⟨.profilePath, none⟩, ⟨.Eval d.stderr installable ["--json"], some err⟩]⟩
    | (.ok buildInputPaths, s2) =>
      match d.Unmarshal buildInputPaths with
      | .error err =>
        ⟨some (Errorf ("unmarshal store paths: " ++ buildInputPaths ++ ": " ++ err.Error)), s2,
          [⟨.profilePath, none⟩, ⟨.Eval d.stderr installable ["--json"], none⟩]⟩
      | .ok storePaths =>
        match d.ProfileListItems d.stderr profilePath s2 with
        | (.error err, s3) =>
          ⟨some (Errorf ("nix profile list: " ++ err.Error)), s3,
            [⟨.profilePath, none⟩, ⟨.Eval d.stderr installable ["--json"], none⟩,
              ⟨.ProfileListItems d.stderr profilePath, some err⟩]⟩
        | (.ok items, s3) =>
          let got : List String := items.foldl (fun got item => got ++ d.StorePaths item) []
          let (add, remove) := diffStorePaths got storePaths
          (applyDelta d profilePath add remove s3).after
            [⟨.profilePath, none⟩, ⟨.Eval d.stderr installable ["--json"], none⟩,
              ⟨.ProfileListItems d.stderr profilePath, none⟩]

/-! ## Reading a trace -/

/-- The calls of a trace that change the profile, in order. -/
def mutations (tr : List Event) : List Call :=
  (tr.map (fun ev => ev.call)).filter
    (fun c => match c with
      | .ProfileRemove _ _ => true
      | .ProfileInstall _ => true
      | _ => false)

/-- The `ProfileInstall` calls of a trace with their outcomes, in order. -/
def installs (tr : List Event) : List (ProfileInstallArgs × Option GoError) :=
  tr.filterMap
    (fun ev => match ev.call with
      | .ProfileInstall args => some (args, ev.err)
      | _ => none)

/-- Modelled from the spec: the contents of the profile after a delta has been
applied successfully.  The effect of `nix.ProfileRemove` and
`nixprofile.ProfileInstall` on a profile is not in the source; the members of
`remove` are deleted from `got`, then the members of `add` follow. -/
def profileAfterApply (got add remove : List String) : List String :=
  got.filter (fun g => decide (g ∉ remove)) ++ add

/-! ## A small concrete world -/

/-- A concrete receiver for evaluating the procedure.  The world state is the
list of store paths in the profile; evaluation of the flake yields `want`;
every profile item holds one store path; `ProfileRemove` fails with
`removeErr` when that is given, and `ProfileInstall` fails with `installErr`
on the store path `failOn`. -/
def demo (want : List String) (removeErr : Option GoError) (failOn : Option String)
    (installErr : GoError) : Devbox (List String) String where
  stderr := ⟨2⟩
  profilePath := fun s => (.ok "/proj/.devbox/nix/profile/default", s)
  flakeDir := "/proj/.devbox/gen/flake"
  System := "x86_64-linux"
  Eval := fun _ _ _ s => (.ok "[...]", s)
  Unmarshal := fun _ => .ok want
  ProfileListItems := fun _ _ s => (.ok s, s)
  StorePaths := fun item => [item]
  NewStorePathParts := fun path => ⟨path, "1.0"⟩
  Fprintf := fun _ _ s => s
  ProfileRemove := fun _ paths s =>
    match removeErr with
    | some err => (some err, s)
    | none => (none, s.filter (fun x => decide (x ∉ paths)))
  ProfileInstall := fun args s =>
    if failOn = some args.Installable then (some installErr, s)
    else (none, s ++ [args.Installable])

/-! ## Lemmas on `diffStorePaths` -/

theorem GoMap.has_build (l : List String) (m : GoMap) (x : String) :
    (l.foldl (fun m g => m.set g true) m).has x = (decide (x ∈ l) || m.has x) := by
  induction l generalizing m with
  | nil => simp
  | cons a l ih =>
    rw [List.foldl_cons, ih]
    by_cases hxa : x = a
    · simp [GoMap.has, GoMap.set, hxa]
    · simp [GoMap.has, GoMap.set, hxa]

theorem GoMap.has_presence (l : List String) (x : String) :
    (l.foldl (fun m g => m.set g true) GoMap.empty).has x = decide (x ∈ l) := by
  rw [GoMap.has_build]
  simp [GoMap.has, GoMap.empty]

theorem foldl_append_if (p : String → Bool) (l acc : List String) :
    l.foldl (fun acc g => if p g then acc ++ [g] else acc) acc = acc ++ l.filter p := by
  induction l generalizing acc with
  | nil => simp
  | cons a l ih =>
    rw [List.foldl_cons, ih]
    by_cases hp : p a
    · simp [hp, List.filter_cons]
    · simp [hp, List.filter_cons]

/-- The two outputs of `diffStorePaths` in closed form. -/
theorem diffStorePaths_eq (got want : List String) :
    diffStorePaths got want =
      (want.filter (fun w => decide (w ∉ got)), got.filter (fun g => decide (g ∉ want))) := by
  unfold diffStorePaths
  simp only [GoMap.has_presence]
  rw [foldl_append_if (fun g => !decide (g ∈ want)) got [],
    foldl_append_if (fun w => !decide (w ∈ got)) want []]
  simp

theorem mem_diff_add (got want : List String) (x : String) :
    x ∈ (diffStorePaths got want).1 ↔ x ∈ want ∧ x ∉ got := by
  simp [diffStorePaths_eq]

theorem mem_diff_remove (got want : List String) (x : String) :
    x ∈ (diffStorePaths got want).2 ↔ x ∈ got ∧ x ∉ want := by
  simp [diffStorePaths_eq]

theorem count_diff_add (got want : List String) (x : String) :
    (diffStorePaths got want).1.count x = if x ∈ got then 0 else want.count x := by
  rw [diffStorePaths_eq]
  by_cases h : x ∈ got
  · simp only [h, if_true]
    exact List.count_eq_zero.mpr (by simp [h])
  · simp only [h, if_false]
    exact List.count_filter (by simpa using h)

theorem count_diff_remove (got want : List String) (x : String) :
    (diffStorePaths got want).2.count x = if x ∈ want then 0 else got.count x := by
  rw [diffStorePaths_eq]
  by_cases h : x ∈ want
  · simp only [h, if_true]
    exact List.count_eq_zero.mpr (by simp [h])
  · simp only [h, if_false]
    exact List.count_filter (by simpa using h)

/-- The diff is empty on both sides exactly when the inputs have the same
members. -/
theorem diffStorePaths_eq_nil_iff (got want : List String) :
    diffStorePaths got want = ([], []) ↔ ∀ x, x ∈ got ↔ x ∈ want := by
  rw [diffStorePaths_eq]
  simp only [Prod.mk.injEq, List.filter_eq_nil_iff, decide_eq_true_eq, not_not]
  constructor
  · rintro ⟨h1, h2⟩ x
    exact ⟨h2 x, h1 x⟩
  · intro h
    exact ⟨fun x hx => (h x).mpr hx, fun x hx => (h x).mp hx⟩

/-! ## The diff: membership, order, multiplicity -/

/-- Claim C1: for all `got` and `want`, an identifier occurs in `add` iff it
occurs in `want` and not in `got`; it occurs in `remove` iff it occurs in `got`
and not in `want`; and no identifier occurs in both `add` and `remove`. -/
theorem diffStorePaths_membership (got want : List String) :
    (∀ x, x ∈ (diffStorePaths got want).1 ↔ x ∈ want ∧ x ∉ got) ∧
    (∀ x, x ∈ (diffStorePaths got want).2 ↔ x ∈ got ∧ x ∉ want) ∧
    (∀ x, ¬ (x ∈ (diffStorePaths got want).1 ∧ x ∈ (diffStorePaths got want).2)) := by
  refine ⟨mem_diff_add got want, mem_diff_remove got want, ?_⟩
  rintro x ⟨ha, hr⟩
  exact ((mem_diff_add got want x).mp ha).2 ((mem_diff_remove got want x).mp hr).1

/-- Claim C2, as stated, fails: an identifier that `got` holds twice and `want`
does not hold is emitted twice in `remove`, and one that `want` holds twice and
`got` does not hold is emitted twice in `add`. -/
theorem diffStorePaths_duplicates_emitted :
    diffStorePaths ["b", "b"] [] = ([], ["b", "b"]) ∧
    ¬ (diffStorePaths ["b", "b"] []).2.Nodup ∧
    diffStorePaths [] ["c", "c"] = (["c", "c"], []) ∧
    ¬ (diffStorePaths [] ["c", "c"]).1.Nodup := by
  decide

/-- Claim C2, amended: an identifier present in both inputs appears in neither
output, however often it is repeated (`diffStorePaths [a,a,b] [a,c]` gives
`add = [c]`, `remove = [b]`); `add` is free of duplicates exactly when no
identifier absent from `got` occurs more than once in `want`, and `remove` is
free of duplicates exactly when no identifier absent from `want` occurs more
than once in `got`. -/
theorem diffStorePaths_nodup_iff (got want : List String) :
    (∀ x, x ∈ got → x ∈ want →
      x ∉ (diffStorePaths got want).1 ∧ x ∉ (diffStorePaths got want).2) ∧
    diffStorePaths ["a", "a", "b"] ["a", "c"] = (["c"], ["b"]) ∧
    ((diffStorePaths got want).1.Nodup ↔ ∀ x, x ∉ got → want.count x ≤ 1) ∧
    ((diffStorePaths got want).2.Nodup ↔ ∀ x, x ∉ want → got.count x ≤ 1) := by
  refine ⟨?_, by decide, ?_, ?_⟩
  · intro x hg hw
    exact ⟨fun h => ((mem_diff_add got want x).mp h).2 hg,
      fun h => ((mem_diff_remove got want x).mp h).2 hw⟩
  · rw [List.nodup_iff_count_le_one]
    constructor
    · intro h x hx
      have := h x
      rwa [count_diff_add, if_neg hx] at this
    · intro h x
      rw [count_diff_add]
      split
      · exact Nat.zero_le 1
      · next hx => exact h x hx
  · rw [List.nodup_iff_count_le_one]
    constructor
    · intro h x hx
      have := h x
      rwa [count_diff_remove, if_neg hx] at this
    · intro h x
      rw [count_diff_remove]
      split
      · exact Nat.zero_le 1
      · next hx => exact h x hx

/-- Witness for claim C2 as amended: with `got = [a, b]` and
`want = [a, c]` both outputs are free of duplicates. -/
theorem diffStorePaths_nodup_iff_witness :
    (diffStorePaths ["a", "b"] ["a", "c"]).1.Nodup ∧
    (diffStorePaths ["a", "b"] ["a", "c"]).2.Nodup :=
  ⟨(diffStorePaths_nodup_iff ["a", "b"] ["a", "c"]).2.2.1.mpr
      (fun x _ => List.nodup_iff_count_le_one.mp (by decide) x),
    (diffStorePaths_nodup_iff ["a", "b"] ["a", "c"]).2.2.2.mpr
      (fun x _ => List.nodup_iff_count_le_one.mp (by decide) x)⟩

/-- Claim C4: reconciliation is idempotent.  With `(add, remove)` the diff of
`got` against `want` and `got1` the profile after the delta is applied (`got`
without the members of `remove`, followed by `add`), the diff of `got1`
against `want` is empty on both sides. -/
theorem diffStorePaths_idempotent (got want : List String) :
    diffStorePaths
        (profileAfterApply got (diffStorePaths got want).1 (diffStorePaths got want).2)
        want = ([], []) := by
  rw [diffStorePaths_eq_nil_iff]
  intro x
  simp only [profileAfterApply, List.mem_append, List.mem_filter, decide_eq_true_eq,
    mem_diff_add, mem_diff_remove]
  by_cases hg : x ∈ got <;> by_cases hw : x ∈ want <;> simp [hg, hw]

/-- Claim C9: `diffStorePaths` preserves input order.  `add` is a subsequence of
`want`, `remove` is a subsequence of `got`; `add` is `want` filtered to the
elements not occurring in `got`, and `remove` is `got` filtered to the elements
not occurring in `want`. -/
theorem diffStorePaths_order (got want : List String) :
    (diffStorePaths got want).1.Sublist want ∧
    (diffStorePaths got want).2.Sublist got ∧
    (diffStorePaths got want).1 = want.filter (fun w => decide (w ∉ got)) ∧
    (diffStorePaths got want).2 = got.filter (fun g => decide (g ∉ want)) := by
  rw [diffStorePaths_eq]
  exact ⟨List.filter_sublist _, List.filter_sublist _, rfl, rfl⟩

/-- Claim C10: `diffStorePaths` keeps multiplicities.  An identifier occurs in
`remove` as often as in `got` when it does not occur in `want`, and not at all
otherwise; it occurs in `add` as often as in `want` when it does not occur in
`got`, and not at all otherwise.  Hence `remove` has no duplicates when `got`
has none, and `add` has no duplicates when `want` has none. -/
theorem diffStorePaths_multiplicity (got want : List String) :
    (∀ x, (diffStorePaths got want).2.count x = if x ∈ want then 0 else got.count x) ∧
    (∀ x, (diffStorePaths got want).1.count x = if x ∈ got then 0 else want.count x) ∧
    (got.Nodup → (diffStorePaths got want).2.Nodup) ∧
    (want.Nodup → (diffStorePaths got want).1.Nodup) := by
  refine ⟨count_diff_remove got want, count_diff_add got want, ?_, ?_⟩
  · intro h
    rw [diffStorePaths_eq]
    exact h.filter _
  · intro h
    rw [diffStorePaths_eq]
    exact h.filter _

/-- Witness for claim C10: `got = [a, b, b]` against
`want = [a, c]`, where `b` is removed twice and `add` is free of duplicates. -/
theorem diffStorePaths_multiplicity_witness :
    (diffStorePaths ["a", "b", "b"] ["a", "c"]).2.count "b" = 2 ∧
    (diffStorePaths ["a", "b", "b"] ["a", "c"]).1.Nodup :=
  ⟨((diffStorePaths_multiplicity ["a", "b", "b"] ["a", "c"]).1 "b").trans (by decide),
    (diffStorePaths_multiplicity ["a", "b", "b"] ["a", "c"]).2.2.2 (by decide)⟩

/-! ## Lemmas on the apply stage -/

theorem installs_append (tr1 tr2 : List Event) :
    installs (tr1 ++ tr2) = installs tr1 ++ installs tr2 := by
  simp [installs, List.filterMap_append]

theorem mutations_append (tr1 tr2 : List Event) :
    mutations (tr1 ++ tr2) = mutations tr1 ++ mutations tr2 := by
  simp [mutations]

theorem installs_map_install {α : Type} (l : List α) (f : α → ProfileInstallArgs)
    (g : α → Option GoError) :
    installs (l.map (fun x => (⟨.ProfileInstall (f x), g x⟩ : Event))) =
      l.map (fun x => (f x, g x)) := by
  induction l with
  | nil => rfl
  | cons a l ih =>
    simp only [List.map_cons]
    rw [← ih]
    rfl

theorem mutations_map_install {α : Type} (l : List α) (f : α → ProfileInstallArgs)
    (g : α → Option GoError) :
    mutations (l.map (fun x => (⟨.ProfileInstall (f x), g x⟩ : Event))) =
      l.map (fun x => Call.ProfileInstall (f x)) := by
  induction l with
  | nil => rfl
  | cons a l ih =>
    simp only [List.map_cons]
    rw [← ih]
    rfl

/-- The two ways the install loop can end: every install succeeded, or the
install of some `l[j]` failed after the installs before it succeeded. -/
theorem installLoop_cases (d : Devbox σ Item) (p : String) (total : Nat) (l : List String) :
    ∀ (idx : Nat) (s : σ),
      ((installLoop d p total idx l s).err = none ∧
        (installLoop d p total idx l s).trace =
          (l.enumFrom idx).map
            (fun ia => (⟨.ProfileInstall (installArgs d p total ia.1 ia.2), none⟩ : Event))) ∨
      (∃ j x e, l[j]? = some x ∧
        (installLoop d p total idx l s).err =
          some (ErrorfW ("error installing package " ++ x ++ ": " ++ e.Error) e) ∧
        (installLoop d p total idx l s).trace =
          ((l.take j).enumFrom idx).map
            (fun ia => (⟨.ProfileInstall (installArgs d p total ia.1 ia.2), none⟩ : Event)) ++
          [⟨.ProfileInstall (installArgs d p total (idx + j) x), some e⟩]) := by
  induction l with
  | nil =>
    intro idx s
    left
    exact ⟨rfl, rfl⟩
  | cons a rest ih =>
    intro idx s
    rw [installLoop]
    rcases hcall : d.ProfileInstall (installArgs d p total idx a) s with ⟨o, s1⟩
    cases o with
    | some err =>
      right
      exact ⟨0, a, err, by simp, rfl, by simp⟩
    | none =>
      rcases ih (idx + 1) s1 with ⟨herr, htr⟩ | ⟨j, x, e, hx, herr, htr⟩
      · left
        refine ⟨herr, ?_⟩
        simp only [Run.after, htr, List.enumFrom_cons, List.map_cons]
        rfl
      · right
        refine ⟨j + 1, x, e, by simpa using hx, herr, ?_⟩
        simp only [Run.after, htr, List.take_succ_cons, List.enumFrom_cons, List.map_cons]
        have : idx + 1 + j = idx + (j + 1) := by omega
        rw [this]
        rfl

theorem installLoop_fail_at (d : Devbox σ Item) (p : String) (total idx : Nat)
    (l : List String) (s : σ) (k : Nat) (args : ProfileInstallArgs) (e : GoError)
    (hfail : (installs (installLoop d p total idx l s).trace)[k]? = some (args, some e)) :
    ∃ x, l[k]? = some x ∧ args = installArgs d p total (idx + k) x ∧
      (installLoop d p total idx l s).err =
        some (ErrorfW ("error installing package " ++ x ++ ": " ++ e.Error) e) ∧
      (installLoop d p total idx l s).trace =
        ((l.take k).enumFrom idx).map
          (fun ia => (⟨.ProfileInstall (installArgs d p total ia.1 ia.2), none⟩ : Event)) ++
        [⟨.ProfileInstall args, some e⟩] := by
  rcases installLoop_cases d p total l idx s with ⟨_, htr⟩ | ⟨j, x, e1, hx, herr, htr⟩
  · rw [htr, installs_map_install, List.getElem?_map] at hfail
    cases hget : (l.enumFrom idx)[k]? with
    | none => simp [hget] at hfail
    | some ia => simp [hget] at hfail
  · have hj : j < l.length := by
      rcases Nat.lt_or_ge j l.length with h | h
      · exact h
      · rw [List.getElem?_eq_none h] at hx
        cases hx
    have hlen : (((l.take j).enumFrom idx).map
        (fun ia => (installArgs d p total ia.1 ia.2, (none : Option GoError)))).length = j := by
      simp [Nat.min_eq_left (Nat.le_of_lt hj)]
    rw [htr, installs_append, installs_map_install] at hfail
    rcases Nat.lt_trichotomy k j with hlt | heq | hgt
    · rw [List.getElem?_append_left (by rw [hlen]; exact hlt), List.getElem?_map] at hfail
      cases hget : ((l.take j).enumFrom idx)[k]? with
      | none => simp [hget] at hfail
      | some ia => simp [hget] at hfail
    · subst heq
      rw [List.getElem?_append_right (by rw [hlen]), hlen] at hfail
      simp [installs] at hfail
      obtain ⟨hargs, he⟩ := hfail
      subst he
      exact ⟨x, hx, hargs.symm, herr, by rw [htr, hargs]⟩
    · rw [List.getElem?_append_right (by rw [hlen]; omega), hlen] at hfail
      have : k - j = (k - j - 1) + 1 := by omega
      rw [this] at hfail
      simp [installs] at hfail

theorem installPhase_eq (d : Devbox σ Item) (p : String) (add : List String) (s : σ) :
    installPhase d p add s = installLoop d p add.length 0 add s := by
  unfold installPhase
  split
  · rfl
  · next h =>
    have : add = [] := by
      cases add with
      | nil => rfl
      | cons a l => simp at h
    subst this
    rfl

/-- The three ways the apply stage can go: nothing to remove, a failed removal,
or a successful removal followed by the install loop. -/
theorem applyDelta_cases (d : Devbox σ Item) (p : String) (add remove : List String)
    (s : σ) :
    (remove = [] ∧ applyDelta d p add remove s = installLoop d p add.length 0 add s) ∨
    (remove ≠ [] ∧ ∃ e s2, applyDelta d p add remove s =
      ⟨some e, s2, [⟨.Fprintf d.stderr (removalMessage d remove), none⟩,
        ⟨.ProfileRemove p remove, some e⟩]⟩) ∨
    (remove ≠ [] ∧ ∃ s2, applyDelta d p add remove s =
      (installLoop d p add.length 0 add s2).after
        [⟨.Fprintf d.stderr (removalMessage d remove), none⟩,
          ⟨.ProfileRemove p remove, none⟩]) := by
  unfold applyDelta
  split
  · next h =>
    have hne : remove ≠ [] := by
      intro h0
      simp [h0] at h
    right
    simp only []
    rcases hcall : d.ProfileRemove p remove
        (d.Fprintf d.stderr (removalMessage d remove) s) with ⟨o, s2⟩
    cases o with
    | some err =>
      left
      exact ⟨hne, err, s2, rfl⟩
    | none =>
      right
      exact ⟨hne, s2, by simp only [installPhase_eq]⟩
  · next h =>
    left
    have : remove = [] := by
      cases remove with
      | nil => rfl
      | cons a l => simp at h
    exact ⟨this, installPhase_eq d p add s⟩

theorem installLoop_success (d : Devbox σ Item) (p : String) (total idx : Nat)
    (l : List String) (s : σ)
    (hok : ∀ ev ∈ (installLoop d p total idx l s).trace, ev.err = none) :
    (installLoop d p total idx l s).err = none ∧
      (installLoop d p total idx l s).trace =
        (l.enumFrom idx).map
          (fun ia => (⟨.ProfileInstall (installArgs d p total ia.1 ia.2), none⟩ : Event)) := by
  rcases installLoop_cases d p total l idx s with h | ⟨j, x, e, _, _, htr⟩
  · exact h
  · have := hok ⟨.ProfileInstall (installArgs d p total (idx + j) x), some e⟩
      (by rw [htr]; simp)
    simp at this

/-- What can be read off a trace of `k` successful installs followed by a
failed one. -/
theorem failed_trace_shape (d : Devbox σ Item) (p : String) (total idx : Nat)
    (l : List String) (k : Nat) (x : String) (e : GoError) (hx : l[k]? = some x)
    (tr : List Event)
    (htr : tr = ((l.take k).enumFrom idx).map
        (fun ia => (⟨.ProfileInstall (installArgs d p total ia.1 ia.2), none⟩ : Event)) ++
      [⟨.ProfileInstall (installArgs d p total (idx + k) x), some e⟩]) :
    (installs tr).length = k + 1 ∧
    (installs tr).map (fun c => c.1.Installable) = l.take (k + 1) ∧
    (∀ j, j < k → ∀ c, (installs tr)[j]? = some c → c.2 = none) ∧
    mutations tr = (installs tr).map (fun c => Call.ProfileInstall c.1) := by
  have hk : k < l.length := by
    rcases Nat.lt_or_ge k l.length with h | h
    · exact h
    · rw [List.getElem?_eq_none h] at hx
      cases hx
  have hins : installs tr =
      ((l.take k).enumFrom idx).map
        (fun ia => (installArgs d p total ia.1 ia.2, (none : Option GoError))) ++
      [(installArgs d p total (idx + k) x, some e)] := by
    rw [htr, installs_append, installs_map_install]
    rfl
  have hmut : mutations tr =
      ((l.take k).enumFrom idx).map
        (fun ia => Call.ProfileInstall (installArgs d p total ia.1 ia.2)) ++
      [Call.ProfileInstall (installArgs d p total (idx + k) x)] := by
    rw [htr, mutations_append, mutations_map_install]
    rfl
  have hlen : (((l.take k).enumFrom idx).map
      (fun ia => (installArgs d p total ia.1 ia.2, (none : Option GoError)))).length = k := by
    simp [Nat.min_eq_left (Nat.le_of_lt hk)]
  refine ⟨?_, ?_, ?_, ?_⟩
  · rw [hins, List.length_append, hlen]
    rfl
  · rw [hins, List.map_append, List.map_map, List.take_succ, hx]
    have : (fun c : ProfileInstallArgs × Option GoError => c.1.Installable) ∘
        (fun ia : Nat × String => (installArgs d p total ia.1 ia.2, (none : Option GoError))) =
        Prod.snd := by
      funext ia
      rfl
    rw [this, List.enumFrom_map_snd]
    rfl
  · intro j hj c hc
    rw [hins, List.getElem?_append_left (by rw [hlen]; exact hj), List.getElem?_map] at hc
    cases hget : ((l.take k).enumFrom idx)[j]? with
    | none => simp [hget] at hc
    | some ia =>
      simp [hget] at hc
      rw [← hc]
  · rw [hmut, hins]
    simp

/-! ## The apply stage: order of calls and failure policy -/

/-- Claim C5: when every external call of the apply stage succeeds, the stage
returns nil and its profile-mutating calls are exactly: one `ProfileRemove`
carrying the whole `remove` list if `remove` is non-empty (none otherwise),
followed by one `ProfileInstall` per member of `add`, in the order of `add`,
the call for `add[i]` (0-based) installing `add[i]` in offline mode with step
label `[i+1/n] name@version`, where `n = len(add)`. -/
theorem applyDelta_calls_of_success (d : Devbox σ Item) (p : String)
    (add remove : List String) (s : σ)
    (hok : ∀ ev ∈ (applyDelta d p add remove s).trace, ev.err = none) :
    (applyDelta d p add remove s).err = none ∧
    mutations (applyDelta d p add remove s).trace =
      (if remove = [] then [] else [Call.ProfileRemove p remove]) ++
      add.enum.map (fun ia => Call.ProfileInstall
        { CustomStepMessage :=
            "[" ++ toString (ia.1 + 1) ++ "/" ++ toString add.length ++ "] " ++
              ((d.NewStorePathParts ia.2).Name ++ "@" ++ (d.NewStorePathParts ia.2).Version)
          Installable := ia.2
          Offline := true
          PackageName := (d.NewStorePathParts ia.2).Name
          ProfilePath := p
          Writer := d.stderr }) := by
  rcases applyDelta_cases d p add remove s with ⟨hr, heq⟩ | ⟨_, e, s2, heq⟩ | ⟨hr, s2, heq⟩
  · rw [heq] at hok ⊢
    obtain ⟨herr, htr⟩ := installLoop_success d p add.length 0 add s hok
    refine ⟨herr, ?_⟩
    rw [htr, mutations_map_install, if_pos hr, List.nil_append]
    rfl
  · have := hok ⟨.ProfileRemove p remove, some e⟩ (by rw [heq]; simp)
    simp at this
  · rw [heq] at hok ⊢
    have hok2 : ∀ ev ∈ (installLoop d p add.length 0 add s2).trace, ev.err = none := by
      intro ev hev
      exact hok ev (by simp [Run.after, hev])
    obtain ⟨herr, htr⟩ := installLoop_success d p add.length 0 add s2 hok2
    refine ⟨herr, ?_⟩
    simp only [Run.after]
    rw [htr, mutations_append, mutations_map_install, if_neg hr]
    rfl

/-- Claim C6: fail-fast on install.  If the `k`-th `ProfileInstall` call
(0-based) of the apply stage fails with `e`, then `add[k]` exists and is the
path of that call; exactly `k+1` install calls are made, for `add[0..k]` in
order, the first `k` of which succeeded; the only mutating calls are the
removal (if any) followed by these installs, so nothing is rolled back; and the
returned error wraps `e` and has the message
`error installing package <add[k]>: <e>`, which contains `add[k]`. -/
theorem applyDelta_install_fail_fast (d : Devbox σ Item) (p : String)
    (add remove : List String) (s : σ) (k : Nat) (args : ProfileInstallArgs) (e : GoError)
    (hfail : (installs (applyDelta d p add remove s).trace)[k]? = some (args, some e)) :
    ∃ x, add[k]? = some x ∧ args.Installable = x ∧
      (installs (applyDelta d p add remove s).trace).length = k + 1 ∧
      (installs (applyDelta d p add remove s).trace).map (fun c => c.1.Installable) =
        add.take (k + 1) ∧
      (∀ j, j < k → ∀ c, (installs (applyDelta d p add remove s).trace)[j]? = some c →
        c.2 = none) ∧
      mutations (applyDelta d p add remove s).trace =
        (if remove = [] then [] else [Call.ProfileRemove p remove]) ++
        (installs (applyDelta d p add remove s).trace).map
          (fun c => Call.ProfileInstall c.1) ∧
      (∃ err, (applyDelta d p add remove s).err = some err ∧
        err.Unwrap = some e ∧
        err.Error = "error installing package " ++ x ++ ": " ++ e.Error ∧
        ∃ pre post, err.Error = pre ++ x ++ post) := by
  rcases applyDelta_cases d p add remove s with ⟨hr, heq⟩ | ⟨_, e1, s2, heq⟩ | ⟨hr, s2, heq⟩
  · rw [heq] at hfail ⊢
    obtain ⟨x, hx, hargs, herr, htr⟩ := installLoop_fail_at d p add.length 0 add s k args e hfail
    rw [hargs] at htr
    obtain ⟨h1, h2, h3, h4⟩ := failed_trace_shape d p add.length 0 add k x e hx _ htr
    refine ⟨x, hx, by rw [hargs]; rfl, h1, h2, h3, ?_, ?_⟩
    · rw [if_pos hr, List.nil_append]
      exact h4
    · exact ⟨_, herr, rfl, rfl, "error installing package ", ": " ++ e.Error, by
        simp [ErrorfW, GoError.Error, String.append_assoc]⟩
  · rw [heq] at hfail
    simp [installs] at hfail
  · have hins : installs (applyDelta d p add remove s).trace =
        installs (installLoop d p add.length 0 add s2).trace := by
      rw [heq]
      simp only [Run.after, installs_append]
      rfl
    have hmut : mutations (applyDelta d p add remove s).trace =
        [Call.ProfileRemove p remove] ++
          mutations (installLoop d p add.length 0 add s2).trace := by
      rw [heq]
      simp only [Run.after, mutations_append]
      rfl
    have herr0 : (applyDelta d p add remove s).err =
        (installLoop d p add.length 0 add s2).err := by
      rw [heq]
      rfl
    rw [hins] at hfail ⊢
    rw [hmut, herr0]
    obtain ⟨x, hx, hargs, herr, htr⟩ :=
      installLoop_fail_at d p add.length 0 add s2 k args e hfail
    rw [hargs] at htr
    obtain ⟨h1, h2, h3, h4⟩ := failed_trace_shape d p add.length 0 add k x e hx _ htr
    refine ⟨x, hx, by rw [hargs]; rfl, h1, h2, h3, ?_, ?_⟩
    · rw [if_neg hr, h4]
    · exact ⟨_, herr, rfl, rfl, "error installing package ", ": " ++ e.Error, by
        simp [ErrorfW, GoError.Error, String.append_assoc]⟩

/-- Witness for claim C5: removing `b` and installing `c`
then `d`, every call succeeding. -/
theorem applyDelta_calls_of_success_witness :
    (∀ ev ∈ (applyDelta (demo [] none none (.leaf "")) "/p" ["c", "d"] ["b"] ["a", "b"]).trace,
      ev.err = none) ∧
    mutations (applyDelta (demo [] none none (.leaf "")) "/p" ["c", "d"] ["b"] ["a", "b"]).trace =
      [Call.ProfileRemove "/p" ["b"],
        Call.ProfileInstall
          { CustomStepMessage := "[1/2] c@1.0", Installable := "c", Offline := true,
            PackageName := "c", ProfilePath := "/p", Writer := ⟨2⟩ },
        Call.ProfileInstall
          { CustomStepMessage := "[2/2] d@1.0", Installable := "d", Offline := true,
            PackageName := "d", ProfilePath := "/p", Writer := ⟨2⟩ }] :=
  ⟨by decide,
    (applyDelta_calls_of_success (demo [] none none (.leaf "")) "/p" ["c", "d"] ["b"]
      ["a", "b"] (by decide)).2.trans (by decide)⟩

/-- Witness for claim C6: of `add = [c, d, e]` the install
of `d` fails; two install calls are made and the error names `d`. -/
theorem applyDelta_install_fail_fast_witness :
    (installs (applyDelta (demo [] none (some "d") (.leaf "boom")) "/p" ["c", "d", "e"] []
      []).trace)[1]? =
      some ({ CustomStepMessage := "[2/3] d@1.0", Installable := "d", Offline := true,
              PackageName := "d", ProfilePath := "/p", Writer := ⟨2⟩ }, some (.leaf "boom")) ∧
    (installs (applyDelta (demo [] none (some "d") (.leaf "boom")) "/p" ["c", "d", "e"] []
      []).trace).map (fun c => c.1.Installable) = ["c", "d"] ∧
    ∃ err, (applyDelta (demo [] none (some "d") (.leaf "boom")) "/p" ["c", "d", "e"] []
        []).err = some err ∧
      err.Unwrap = some (.leaf "boom") ∧
      err.Error = "error installing package d: boom" := by
  have hfail : (installs (applyDelta (demo [] none (some "d") (.leaf "boom")) "/p"
      ["c", "d", "e"] [] []).trace)[1]? =
      some ({ CustomStepMessage := "[2/3] d@1.0", Installable := "d", Offline := true,
              PackageName := "d", ProfilePath := "/p", Writer := ⟨2⟩ }, some (.leaf "boom")) := by
    decide
  obtain ⟨x, hx, _, _, hmap, _, _, err, herr, hunwrap, hmsg, _⟩ :=
    applyDelta_install_fail_fast (demo [] none (some "d") (.leaf "boom")) "/p"
      ["c", "d", "e"] [] [] 1 _ _ hfail
  have hxd : x = "d" := by
    simp at hx
    exact hx.symm
  subst hxd
  exact ⟨hfail, hmap, err, herr, hunwrap, hmsg⟩

/-! ## The whole procedure -/

theorem installLoop_trace_calls (d : Devbox σ Item) (p : String) (total idx : Nat)
    (l : List String) (s : σ) :
    ∀ ev ∈ (installLoop d p total idx l s).trace, ∃ a, ev.call = .ProfileInstall a := by
  intro ev hev
  rcases installLoop_cases d p total l idx s with ⟨_, htr⟩ | ⟨j, x, e, _, _, htr⟩
  · rw [htr] at hev
    simp only [List.mem_map] at hev
    obtain ⟨ia, _, rfl⟩ := hev
    exact ⟨_, rfl⟩
  · rw [htr] at hev
    simp only [List.mem_append, List.mem_map, List.mem_singleton] at hev
    rcases hev with ⟨ia, _, rfl⟩ | rfl
    · exact ⟨_, rfl⟩
    · exact ⟨_, rfl⟩

/-- A failed `ProfileRemove` in the trace of the apply stage is the bulk removal
of `remove`; it ends the stage, and its error is returned as it is. -/
theorem applyDelta_remove_failed (d : Devbox σ Item) (p : String) (add remove : List String)
    (s : σ) (q : String) (paths : List String) (e : GoError)
    (h : (⟨.ProfileRemove q paths, some e⟩ : Event) ∈ (applyDelta d p add remove s).trace) :
    q = p ∧ paths = remove ∧ remove ≠ [] ∧
      (applyDelta d p add remove s).err = some e ∧
      (applyDelta d p add remove s).trace =
        [⟨.Fprintf d.stderr (removalMessage d remove), none⟩,
          ⟨.ProfileRemove p remove, some e⟩] := by
  rcases applyDelta_cases d p add remove s with ⟨_, heq⟩ | ⟨hr, e1, s2, heq⟩ | ⟨_, s2, heq⟩
  · rw [heq] at h
    obtain ⟨a, ha⟩ := installLoop_trace_calls d p add.length 0 add s _ h
    cases ha
  · rw [heq] at h ⊢
    simp at h
    obtain ⟨⟨rfl, rfl⟩, rfl⟩ := h
    exact ⟨rfl, rfl, hr, rfl, rfl⟩
  · rw [heq] at h
    simp only [Run.after, List.mem_append, List.mem_cons, List.mem_singleton] at h
    rcases h with (h | h | h) | h
    · cases h
    · cases h
    · cases h
    · obtain ⟨a, ha⟩ := installLoop_trace_calls d p add.length 0 add s2 _ h
      cases ha

/-- Either the procedure stops before the diff, having made no `ProfileRemove`
and no `ProfileInstall` call, or it runs the apply stage after three
successful calls. -/
theorem syncFlakeToProfile_cases (d : Devbox σ Item) (s : σ) :
    (∀ ev ∈ (syncFlakeToProfile d s).trace,
      (∀ q paths, ev.call ≠ .ProfileRemove q paths) ∧ ∀ a, ev.call ≠ .ProfileInstall a) ∨
    (∃ p installable add remove s3, syncFlakeToProfile d s =
      (applyDelta d p add remove s3).after
        [⟨.profilePath, none⟩, ⟨.Eval d.stderr installable ["--json"], none⟩,
          ⟨.ProfileListItems d.stderr p, none⟩]) := by
  unfold syncFlakeToProfile
  rcases d.profilePath s with ⟨r1, s1⟩
  cases r1 with
  | error err =>
    left
    simp
  | ok p =>
    simp only []
    rcases d.Eval d.stderr (d.flakeDir ++ "#devShells." ++ d.System ++ ".default.buildInputs")
      ["--json"] s1 with ⟨r2, s2⟩
    cases r2 with
    | error err =>
      left
      simp
    | ok bytes =>
      simp only []
      cases d.Unmarshal bytes with
      | error err =>
        left
        simp
      | ok want =>
        simp only []
        rcases d.ProfileListItems d.stderr p s2 with ⟨r4, s3⟩
        cases r4 with
        | error err =>
          left
          simp
        | ok items =>
          right
          exact ⟨_, _, _, _, _, rfl⟩

/-- The procedure after a successful evaluation and listing: the apply stage on
the diff of the listed store paths against the evaluated ones. -/
theorem syncFlakeToProfile_of_prelude (d : Devbox σ Item) (s s1 s2 s3 : σ) (p bytes : String)
    (want : List String) (items : List Item)
    (h1 : d.profilePath s = (.ok p, s1))
    (h2 : d.Eval d.stderr (d.flakeDir ++ "#devShells." ++ d.System ++ ".default.buildInputs")
      ["--json"] s1 = (.ok bytes, s2))
    (h3 : d.Unmarshal bytes = .ok want)
    (h4 : d.ProfileListItems d.stderr p s2 = (.ok items, s3)) :
    syncFlakeToProfile d s =
      (applyDelta d p
        (diffStorePaths (items.foldl (fun got item => got ++ d.StorePaths item) []) want).1
        (diffStorePaths (items.foldl (fun got item => got ++ d.StorePaths item) []) want).2
        s3).after
        [⟨.profilePath, none⟩,
          ⟨.Eval d.stderr (d.flakeDir ++ "#devShells." ++ d.System ++ ".default.buildInputs")
            ["--json"], none⟩,
          ⟨.ProfileListItems d.stderr p, none⟩] := by
  unfold syncFlakeToProfile
  simp only [h1, h2, h3, h4]

/-- A failed `ProfileRemove` in the trace of the whole procedure. -/
theorem syncFlakeToProfile_remove_failed (d : Devbox σ Item) (s : σ) (q : String)
    (paths : List String) (e : GoError)
    (h : (⟨.ProfileRemove q paths, some e⟩ : Event) ∈ (syncFlakeToProfile d s).trace) :
    paths ≠ [] ∧ (syncFlakeToProfile d s).err = some e ∧
      installs (syncFlakeToProfile d s).trace = [] := by
  rcases syncFlakeToProfile_cases d s with hno | ⟨p, i, add, remove, s3, heq⟩
  · exact absurd rfl ((hno _ h).1 q paths)
  · rw [heq] at h ⊢
    simp only [Run.after, List.mem_append, List.mem_cons, List.mem_singleton] at h
    have h2 : (⟨.ProfileRemove q paths, some e⟩ : Event) ∈
        (applyDelta d p add remove s3).trace := by
      rcases h with (h | h | h | h) | h
      · cases h
      · cases h
      · cases h
      · cases h
      · exact h
    obtain ⟨_, hp, hne, herr, htr⟩ := applyDelta_remove_failed d p add remove s3 q paths e h2
    refine ⟨hp ▸ hne, herr, ?_⟩
    simp only [Run.after, htr]
    rfl

/-- Claim C3: a no-op run.  `diffStorePaths X X` is empty on both sides for
every `X`; and whenever the store paths listed from the profile and the
evaluated store paths have the same members, `syncFlakeToProfile` returns nil
after the three read-only calls alone: it makes no `ProfileRemove` call, no
`ProfileInstall` call, and leaves the world as the listing left it. -/
theorem syncFlakeToProfile_noop :
    (∀ X : List String, diffStorePaths X X = ([], [])) ∧
    ∀ (d : Devbox σ Item) (s s1 s2 s3 : σ) (p bytes : String) (want : List String)
      (items : List Item),
      d.profilePath s = (.ok p, s1) →
      d.Eval d.stderr (d.flakeDir ++ "#devShells." ++ d.System ++ ".default.buildInputs")
        ["--json"] s1 = (.ok bytes, s2) →
      d.Unmarshal bytes = .ok want →
      d.ProfileListItems d.stderr p s2 = (.ok items, s3) →
      (∀ x, x ∈ items.foldl (fun got item => got ++ d.StorePaths item) [] ↔ x ∈ want) →
      (syncFlakeToProfile d s).err = none ∧
      (syncFlakeToProfile d s).state = s3 ∧
      mutations (syncFlakeToProfile d s).trace = [] ∧
      (syncFlakeToProfile d s).trace =
        [⟨.profilePath, none⟩,
          ⟨.Eval d.stderr (d.flakeDir ++ "#devShells." ++ d.System ++ ".default.buildInputs")
            ["--json"], none⟩,
          ⟨.ProfileListItems d.stderr p, none⟩] := by
  constructor
  · intro X
    exact (diffStorePaths_eq_nil_iff X X).mpr (fun _ => Iff.rfl)
  · intro d s s1 s2 s3 p bytes want items h1 h2 h3 h4 h5
    rw [syncFlakeToProfile_of_prelude d s s1 s2 s3 p bytes want items h1 h2 h3 h4,
      (diffStorePaths_eq_nil_iff _ _).mpr h5]
    exact ⟨rfl, rfl, rfl, rfl⟩

/-- Witness for claim C3: the profile holds `b, a, a` and the
flake evaluates to `a, b`; the run makes no mutating call and returns nil. -/
theorem syncFlakeToProfile_noop_witness :
    (syncFlakeToProfile (demo ["a", "b"] none none (.leaf "")) ["b", "a", "a"]).err = none ∧
    mutations
      (syncFlakeToProfile (demo ["a", "b"] none none (.leaf "")) ["b", "a", "a"]).trace = [] :=
  have h := syncFlakeToProfile_noop.2 (demo ["a", "b"] none none (.leaf "")) ["b", "a", "a"]
    ["b", "a", "a"] ["b", "a", "a"] ["b", "a", "a"] "/proj/.devbox/nix/profile/default"
    "[...]" ["a", "b"] ["b", "a", "a"] rfl rfl rfl rfl
    (by intro x; simp [demo]; tauto)
  ⟨h.1, h.2.2.1⟩

/-- Claim C7: if the bulk `ProfileRemove` call fails, then `remove` was
non-empty, `syncFlakeToProfile` returns a non-nil error, and it makes no
`ProfileInstall` call, whatever `add` holds. -/
theorem syncFlakeToProfile_removal_failure_aborts (d : Devbox σ Item) (s : σ) (q : String)
    (paths : List String) (e : GoError)
    (h : (⟨.ProfileRemove q paths, some e⟩ : Event) ∈ (syncFlakeToProfile d s).trace) :
    paths ≠ [] ∧ (syncFlakeToProfile d s).err ≠ none ∧
      installs (syncFlakeToProfile d s).trace = [] := by
  obtain ⟨hne, herr, hins⟩ := syncFlakeToProfile_remove_failed d s q paths e h
  refine ⟨hne, ?_, hins⟩
  rw [herr]
  simp

/-- Witness for claim C7: the profile holds
`a, b`, the flake evaluates to `a, c, d` (so `add = [c, d]`, `remove = [b]`) and
the removal fails. -/
theorem syncFlakeToProfile_removal_failure_aborts_witness :
    (diffStorePaths ["a", "b"] ["a", "c", "d"]).1 = ["c", "d"] ∧
    (syncFlakeToProfile (demo ["a", "c", "d"] (some (.leaf "exit status 1")) none (.leaf ""))
      ["a", "b"]).err ≠ none ∧
    installs (syncFlakeToProfile
      (demo ["a", "c", "d"] (some (.leaf "exit status 1")) none (.leaf ""))
      ["a", "b"]).trace = [] :=
  ⟨by decide,
    (syncFlakeToProfile_removal_failure_aborts
      (demo ["a", "c", "d"] (some (.leaf "exit status 1")) none (.leaf "")) ["a", "b"]
      "/proj/.devbox/nix/profile/default" ["b"] (.leaf "exit status 1") (by decide)).2⟩

/-- Claim C8 asks that a failed bulk `ProfileRemove` be returned wrapped with
context naming the removal.  The code does not do so: in a run where
`ProfileRemove` fails with the error `exit status 1`, the error returned is
that error itself; it wraps nothing, and its message is not the message of the
removal error behind a non-empty context (line 61 is a bare `return err`,
unlike the returns at lines 29, 39 and 83). -/
theorem syncFlakeToProfile_removal_error_bare :
    (⟨.ProfileRemove "/proj/.devbox/nix/profile/default" ["b"],
        some (.leaf "exit status 1")⟩ : Event) ∈
      (syncFlakeToProfile (demo ["a", "c"] (some (.leaf "exit status 1")) none (.leaf ""))
        ["a", "b"]).trace ∧
    (syncFlakeToProfile (demo ["a", "c"] (some (.leaf "exit status 1")) none (.leaf ""))
      ["a", "b"]).err = some (.leaf "exit status 1") ∧
    ((syncFlakeToProfile (demo ["a", "c"] (some (.leaf "exit status 1")) none (.leaf ""))
      ["a", "b"]).err.bind GoError.Unwrap) = none ∧
    ¬ ∃ ctx : String, ctx ≠ "" ∧
      ((syncFlakeToProfile (demo ["a", "c"] (some (.leaf "exit status 1")) none (.leaf ""))
        ["a", "b"]).err.map GoError.Error) = some (ctx ++ "exit status 1") := by
  refine ⟨by decide, by decide, by decide, ?_⟩
  rintro ⟨ctx, hne, h⟩
  have hmsg : ((syncFlakeToProfile
      (demo ["a", "c"] (some (.leaf "exit status 1")) none (.leaf ""))
      ["a", "b"]).err.map GoError.Error) = some "exit status 1" := by decide
  rw [hmsg] at h
  have hlen := congrArg (fun o : Option String => o.map String.length) h
  simp only [Option.map_some', String.length_append, Option.some.injEq] at hlen
  have h0 : ctx.length = 0 := by omega
  apply hne
  apply String.ext
  exact List.length_eq_zero.mp h0

end NixProfile
